import Mathlib

/-!
Verification of the `two_dim_array` crate: a two-dimensional, row-major view
over a one-dimensional buffer.  The buffer is modelled as a `List T`; Rust's
in-place mutation of the view (`reshape`) is modelled by explicit state
passing, and a panic is modelled by the value `none` of an `Option` result.
-/

/-- The view type from `src/crates/two_dim_array/src/lib.rs`: a buffer together
with the two dimensions currently imposed on it.  The Rust field `buffer` is an
exclusive slice borrow; here it is the list of elements it refers to. -/
structure TwoDimensionalArray (T : Type) where
  buffer : List T
  num_rows : Nat
  num_cols : Nat
deriving DecidableEq

/-- The error enum `ShapeError` with its single variant
`InvalidShape { buffer_len, num_rows, num_cols }`. -/
inductive ShapeError where
  | InvalidShape (buffer_len num_rows num_cols : Nat)
deriving DecidableEq

/-- A Rust `SliceIndex<[T]>` argument as used by this crate: either a single
position (`usize`, yielding one element) or a contiguous range
(`Range<usize>`, yielding a sub-slice). -/
inductive ColIdx where
  | pos (i : Nat)
  | range (start stop : Nat)
deriving DecidableEq

/-- Rust `slice::get` at a single position: `Some` element iff the index is in
bounds. -/
def sliceGetPos (s : List T) (i : Nat) : Option T :=
  s.get? i

/-- Rust `slice::get` at a range `start..stop`: `Some` sub-slice iff
`start <= stop` and `stop <= s.len()`, `None` otherwise. -/
def sliceGetRange (s : List T) (start stop : Nat) : Option (List T) :=
  if start ≤ stop ∧ stop ≤ s.length then some ((s.take stop).drop start) else none

/-- Rust indexing `s[i]` at a single position: panics (modelled `none`) iff out
of bounds, otherwise the element. -/
def sliceIndexPos (s : List T) (i : Nat) : Option T :=
  if h : i < s.length then some (s.get ⟨i, h⟩) else none

/-- Rust indexing `s[start..stop]`: panics (modelled `none`) when
`stop < start` or `s.len() < stop`, otherwise the sub-slice. -/
def sliceIndexRange (s : List T) (start stop : Nat) : Option (List T) :=
  if stop < start then none
  else if s.length < stop then none
  else some ((s.drop start).take (stop - start))

/-- `TwoDimensionalArray::new`: fails with `InvalidShape` when
`buffer.len() != num_cols * num_rows`, otherwise builds the view. -/
def TwoDimensionalArray.new (buffer : List T) (num_rows num_cols : Nat) :
    Except ShapeError (TwoDimensionalArray T) :=
  if buffer.length ≠ num_cols * num_rows then
    Except.error (ShapeError.InvalidShape buffer.length num_rows num_cols)
  else
    Except.ok ⟨buffer, num_rows, num_cols⟩

/-- `TwoDimensionalArray::reshape`: validates the requested shape against the
current buffer length; on success replaces both dimensions, on failure returns
the error and leaves the state unchanged.  The Rust method mutates `self` and
returns `Result<(), ShapeError>`; here the pair carries the result and the
post-state. -/
def TwoDimensionalArray.reshape (a : TwoDimensionalArray T) (num_rows num_cols : Nat) :
    Except ShapeError Unit × TwoDimensionalArray T :=
  if a.buffer.length ≠ num_cols * num_rows then
    (Except.error (ShapeError.InvalidShape a.buffer.length num_rows num_cols), a)
  else
    (Except.ok (), { a with num_rows := num_rows, num_cols := num_cols })

/-- `TwoDimensionalArray::shape`: the pair `(num_rows, num_cols)`. -/
def TwoDimensionalArray.shape (a : TwoDimensionalArray T) : Nat × Nat :=
  (a.num_rows, a.num_cols)

/-- `TwoDimensionalArray::len`: the length of the underlying buffer. -/
def TwoDimensionalArray.len (a : TwoDimensionalArray T) : Nat :=
  a.buffer.length

/-- `TwoDimensionalArray::is_empty`: whether the underlying buffer is empty. -/
def TwoDimensionalArray.is_empty (a : TwoDimensionalArray T) : Bool :=
  a.buffer.isEmpty

/-- `TwoDimensionalArray::get`: resolves the row sub-range
`row_idx*num_cols .. row_idx*num_cols + num_cols` with `slice::get`, then
applies the column selector within that row, propagating `None`.  An element
result is `Sum.inl`, a sub-slice result is `Sum.inr`. -/
def TwoDimensionalArray.get (a : TwoDimensionalArray T) (row_idx : Nat) (col_idx : ColIdx) :
    Option (T ⊕ List T) :=
  match sliceGetRange a.buffer (row_idx * a.num_cols) (row_idx * a.num_cols + a.num_cols) with
  | none => none
  | some row =>
      match col_idx with
      | ColIdx.pos i => (sliceGetPos row i).map Sum.inl
      | ColIdx.range s e => (sliceGetRange row s e).map Sum.inr

/-- `TwoDimensionalArray::get_panic`: indexes the buffer with the row
sub-range, then indexes the result with the column selector; each step uses
Rust `[]` indexing, whose panic is modelled by `none`. -/
def TwoDimensionalArray.get_panic (a : TwoDimensionalArray T) (row_idx : Nat)
    (col_idx : ColIdx) : Option (T ⊕ List T) :=
  match sliceIndexRange a.buffer (row_idx * a.num_cols) (row_idx * a.num_cols + a.num_cols) with
  | none => none
  | some row =>
      match col_idx with
      | ColIdx.pos i => (sliceIndexPos row i).map Sum.inl
      | ColIdx.range s e => (sliceIndexRange row s e).map Sum.inr

/-- `TwoDimensionalArray::get_unchecked`: raw offset arithmetic with no bounds
checks.  In Rust an out-of-bounds call is undefined behaviour; the model's
clamping `take`/`drop`/`getD` agree with the checked tiers exactly on in-bounds
arguments, which is the only regime the code promises anything about. -/
def TwoDimensionalArray.get_unchecked [Inhabited T] (a : TwoDimensionalArray T)
    (row_idx : Nat) (col_idx : ColIdx) : T ⊕ List T :=
  match col_idx with
  | ColIdx.pos i =>
      Sum.inl (((a.buffer.take (row_idx * a.num_cols + a.num_cols)).drop
        (row_idx * a.num_cols)).getD i default)
  | ColIdx.range s e =>
      Sum.inr ((((a.buffer.take (row_idx * a.num_cols + a.num_cols)).drop
        (row_idx * a.num_cols)).take e).drop s)

/-- Writing through the reference returned by `get_mut`/`get_mut_panic` at a
single position: the element at linear offset `row*num_cols + col` is
replaced.  (`List.set` is the identity when the offset is out of bounds, which
matches `get_mut` returning `None` there, so no write occurs.) -/
def TwoDimensionalArray.set_through (a : TwoDimensionalArray T) (row col : Nat) (x : T) :
    TwoDimensionalArray T :=
  { a with buffer := a.buffer.set (row * a.num_cols + col) x }

/-- Rust `slice::chunks(n)` for `n > 0`, materialised as the list of chunks the
iterator yields: successive sub-slices of length `n`, the last possibly
shorter. -/
def chunksGo (n : Nat) : List T → List (List T)
  | [] => []
  | x :: xs => (x :: xs.take (n - 1)) :: chunksGo n (xs.drop (n - 1))
termination_by l => l.length
decreasing_by
  simp only [List.length_drop, List.length_cons]
  omega

/-- `TwoDimensionalArray::rows`: `buffer.chunks(num_cols)`.  Rust's `chunks`
asserts a non-zero chunk size, so `num_cols = 0` panics (modelled `none`);
otherwise the yielded rows, in order. -/
def TwoDimensionalArray.rows (a : TwoDimensionalArray T) : Option (List (List T)) :=
  if a.num_cols = 0 then none else some (chunksGo a.num_cols a.buffer)

/-- `TwoDimensionalArray::rows_mut`: `buffer.chunks_mut(num_cols)`, which at
the value level yields the same row partition as `rows` and likewise panics on
chunk size 0. -/
def TwoDimensionalArray.rows_mut (a : TwoDimensionalArray T) : Option (List (List T)) :=
  if a.num_cols = 0 then none else some (chunksGo a.num_cols a.buffer)

/-- `TwoDimensionalArray::as_slice`: the whole underlying buffer. -/
def TwoDimensionalArray.as_slice (a : TwoDimensionalArray T) : List T :=
  a.buffer

/-- `TwoDimensionalArray::as_mut_slice`: the whole underlying buffer. -/
def TwoDimensionalArray.as_mut_slice (a : TwoDimensionalArray T) : List T :=
  a.buffer

/-- The `Display` implementation for `ShapeError`. -/
def ShapeError.display : ShapeError → String
  | ShapeError.InvalidShape buffer_len num_rows num_cols =>
      "Cannot reshape two dimensional array with number of elements " ++
        toString buffer_len ++ " into " ++ toString num_rows ++ "x" ++
        toString num_cols ++ " array"

/-- The column selector is within the row of length `cols`: a position must be
strictly below `cols`, a range must be ordered and end at or before `cols`. -/
def ColIdx.colOk (cols : Nat) : ColIdx → Prop
  | ColIdx.pos i => i < cols
  | ColIdx.range s e => s ≤ e ∧ e ≤ cols

instance (cols : Nat) : (ci : ColIdx) → Decidable (ColIdx.colOk cols ci)
  | ColIdx.pos i => inferInstanceAs (Decidable (i < cols))
  | ColIdx.range s e => inferInstanceAs (Decidable (s ≤ e ∧ e ≤ cols))

/-- The bounds condition the checked tiers test: the row sub-range
`row*num_cols .. row*num_cols + num_cols` fits in the buffer, and the column
selector fits in that row. -/
def TwoDimensionalArray.inBounds (a : TwoDimensionalArray T) (row_idx : Nat)
    (col_idx : ColIdx) : Prop :=
  row_idx * a.num_cols + a.num_cols ≤ a.buffer.length ∧ ColIdx.colOk a.num_cols col_idx

instance (a : TwoDimensionalArray T) (row_idx : Nat) (col_idx : ColIdx) :
    Decidable (a.inBounds row_idx col_idx) :=
  inferInstanceAs (Decidable (_ ∧ _))

/-- The shape invariant: the buffer length is the product of the dimensions. -/
def TwoDimensionalArray.Inv (a : TwoDimensionalArray T) : Prop :=
  a.buffer.length = a.num_rows * a.num_cols

/-! ### Helper lemmas shared by the claim theorems -/

/-- Rust `[]` range indexing and `get` with a range fail on the same inputs and
agree on the rest. -/
theorem sliceIndexRange_eq (s : List T) (a b : Nat) :
    sliceIndexRange s a b = sliceGetRange s a b := by
  unfold sliceIndexRange sliceGetRange
  rcases Nat.lt_or_ge b a with h | h
  · rw [if_pos h, if_neg (by omega : ¬(a ≤ b ∧ b ≤ s.length))]
  · rw [if_neg (by omega : ¬ b < a)]
    rcases Nat.lt_or_ge s.length b with h2 | h2
    · rw [if_pos h2, if_neg (by omega : ¬(a ≤ b ∧ b ≤ s.length))]
    · rw [if_neg (by omega : ¬ s.length < b), if_pos (⟨h, h2⟩ : a ≤ b ∧ b ≤ s.length),
        List.drop_take]

/-- Rust `[]` position indexing and `get` at a position fail on the same inputs
and agree on the rest. -/
theorem sliceIndexPos_eq (s : List T) (i : Nat) :
    sliceIndexPos s i = sliceGetPos s i := by
  unfold sliceIndexPos sliceGetPos
  by_cases h : i < s.length
  · rw [dif_pos h, List.get?_eq_get h]
  · rw [dif_neg h, eq_comm, List.get?_eq_none]
    omega

/-- `get_panic` performs exactly the bounds checks of `get`: it panics exactly
where `get` returns `None`, and returns the same reference elsewhere. -/
theorem get_panic_eq_get (a : TwoDimensionalArray T) (row_idx : Nat) (col_idx : ColIdx) :
    a.get_panic row_idx col_idx = a.get row_idx col_idx := by
  unfold TwoDimensionalArray.get_panic TwoDimensionalArray.get
  rw [sliceIndexRange_eq]
  cases sliceGetRange a.buffer (row_idx * a.num_cols) (row_idx * a.num_cols + a.num_cols) with
  | none => rfl
  | some row =>
      cases col_idx with
      | pos i => simp [sliceIndexPos_eq]
      | range s e => simp [sliceIndexRange_eq]

/-- When the row sub-range fits in the buffer, the resolved row slice has
exactly `num_cols` elements. -/
theorem row_slice_length (l : List T) (k n : Nat) (h : k + n ≤ l.length) :
    ((l.take (k + n)).drop k).length = n := by
  simp [List.length_drop, List.length_take]
  omega

/-- When the row sub-range fits, `slice::get` on it succeeds with that row. -/
theorem row_slice_some (l : List T) (k n : Nat) (h : k + n ≤ l.length) :
    sliceGetRange l k (k + n) = some ((l.take (k + n)).drop k) := by
  unfold sliceGetRange
  rw [if_pos ⟨Nat.le_add_right _ _, h⟩]

/-- When the row sub-range does not fit, `slice::get` on it fails. -/
theorem row_slice_none (l : List T) (k n : Nat) (h : ¬ k + n ≤ l.length) :
    sliceGetRange l k (k + n) = none := by
  unfold sliceGetRange
  rw [if_neg (by omega : ¬(k ≤ k + n ∧ k + n ≤ l.length))]

/-- `slice::chunks(n)` on a buffer of length `k * n` (with `n > 0`) yields
exactly `k` chunks, each of length `n`, whose concatenation is the buffer. -/
theorem chunksGo_spec (n : Nat) (hn : 0 < n) :
    ∀ (k : Nat) (l : List T), l.length = k * n →
      (chunksGo n l).length = k ∧ (∀ c ∈ chunksGo n l, c.length = n) ∧
        (chunksGo n l).flatten = l := by
  intro k
  induction k with
  | zero =>
      intro l hl
      have hnil : l = [] := List.eq_nil_of_length_eq_zero (by simpa using hl)
      subst hnil
      simp [chunksGo]
  | succ k ih =>
      intro l hl
      cases l with
      | nil =>
          rw [Nat.succ_mul] at hl
          simp at hl
          omega
      | cons x xs =>
          have hx : chunksGo n (x :: xs) =
              (x :: xs.take (n - 1)) :: chunksGo n (xs.drop (n - 1)) := by
            rw [chunksGo]
          have hxs : xs.length + 1 = k * n + n := by
            rw [Nat.succ_mul] at hl
            simpa using hl
          have hlen : (xs.drop (n - 1)).length = k * n := by
            simp [List.length_drop]
            omega
          obtain ⟨h1, h2, h3⟩ := ih (xs.drop (n - 1)) hlen
          refine ⟨?_, ?_, ?_⟩
          · rw [hx]
            simp [h1]
          · rw [hx]
            intro c hc
            rcases List.mem_cons.mp hc with rfl | hc
            · simp [List.length_take]
              omega
            · exact h2 c hc
          · rw [hx, List.flatten_cons, h3, List.cons_append, List.take_append_drop]

/-- On any out-of-bounds row/column-selector pair, `get` returns `None`. -/
theorem get_eq_none_of_not_inBounds (a : TwoDimensionalArray T) (row_idx : Nat)
    (col_idx : ColIdx) (h : ¬ a.inBounds row_idx col_idx) :
    a.get row_idx col_idx = none := by
  unfold TwoDimensionalArray.get
  by_cases hr : row_idx * a.num_cols + a.num_cols ≤ a.buffer.length
  · have hcol : ¬ ColIdx.colOk a.num_cols col_idx := fun hc => h ⟨hr, hc⟩
    rw [row_slice_some a.buffer _ _ hr]
    have hlen := row_slice_length a.buffer (row_idx * a.num_cols) a.num_cols hr
    cases col_idx with
    | pos i =>
        have hi : a.num_cols ≤ i := by
          by_contra hi
          exact hcol (Nat.lt_of_not_le hi)
        simp only [sliceGetPos, Option.map_eq_none', List.get?_eq_none, hlen]
        omega
    | range s e =>
        have hse : ¬ (s ≤ e ∧ e ≤ a.num_cols) := hcol
        simp only [sliceGetRange, hlen, Option.map_eq_none']
        rw [if_neg hse]
  · rw [row_slice_none a.buffer _ _ hr]

/-- On any in-bounds row/column-selector pair, `get` succeeds and returns the
value `get_unchecked` computes by raw offset arithmetic. -/
theorem get_eq_some_of_inBounds [Inhabited T] (a : TwoDimensionalArray T) (row_idx : Nat)
    (col_idx : ColIdx) (h : a.inBounds row_idx col_idx) :
    a.get row_idx col_idx = some (a.get_unchecked row_idx col_idx) := by
  obtain ⟨hr, hc⟩ := h
  have hlen := row_slice_length a.buffer (row_idx * a.num_cols) a.num_cols hr
  unfold TwoDimensionalArray.get TwoDimensionalArray.get_unchecked
  rw [row_slice_some a.buffer _ _ hr]
  cases col_idx with
  | pos i =>
      have hi : i < ((a.buffer.take (row_idx * a.num_cols + a.num_cols)).drop
          (row_idx * a.num_cols)).length := by
        rw [hlen]
        exact hc
      simp only [sliceGetPos, List.get?_eq_get hi, Option.map_some',
        List.getD_eq_getElem _ _ hi]
      rfl
  | range s e =>
      obtain ⟨hse, he⟩ := hc
      simp only [sliceGetRange, hlen]
      rw [if_pos ⟨hse, he⟩]
      rfl

/-- On an in-bounds single-position selector, the value `get` observes is the
buffer element at linear offset `row_idx * num_cols + i`. -/
theorem get_pos_linear_offset (a : TwoDimensionalArray T) (row_idx i : Nat)
    (h : a.inBounds row_idx (ColIdx.pos i)) :
    a.get row_idx (ColIdx.pos i) =
      (a.buffer.get? (row_idx * a.num_cols + i)).map Sum.inl := by
  obtain ⟨hr, hc⟩ := h
  have hi : i < a.num_cols := hc
  unfold TwoDimensionalArray.get
  rw [row_slice_some a.buffer _ _ hr]
  simp only [sliceGetPos]
  rw [List.get?_drop, List.get?_take (by omega : row_idx * a.num_cols + i <
    row_idx * a.num_cols + a.num_cols)]

/-! ### Claim theorems -/

/-- C1: for every view and every out-of-bounds pair of row index and column
selector — an invalid row, or an out-of-range column selector within a valid
row — `get` returns `none` and `get_panic` panics (modelled as `none`); both
failure cases are covered by the single bounds condition `inBounds`, so an
out-of-range column selector on a valid row fails exactly like an invalid
row. -/
theorem C1_out_of_bounds_access (T : Type) (a : TwoDimensionalArray T) (row_idx : Nat)
    (col_idx : ColIdx) (h : ¬ a.inBounds row_idx col_idx) :
    a.get row_idx col_idx = none ∧ a.get_panic row_idx col_idx = none := by
  have hg := get_eq_none_of_not_inBounds a row_idx col_idx h
  exact ⟨hg, by rw [get_panic_eq_get, hg]⟩

/-- Witness for C1: the 2×2 view of `[1,2,3,4]` with the out-of-range column
position 3 on the valid row 0. -/
theorem C1_out_of_bounds_access_witness :
    ¬ (⟨[1,2,3,4], 2, 2⟩ : TwoDimensionalArray Nat).inBounds 0 (ColIdx.pos 3) ∧
      (⟨[1,2,3,4], 2, 2⟩ : TwoDimensionalArray Nat).get 0 (ColIdx.pos 3) = none ∧
      (⟨[1,2,3,4], 2, 2⟩ : TwoDimensionalArray Nat).get_panic 0 (ColIdx.pos 3) = none :=
  ⟨by decide,
    (C1_out_of_bounds_access Nat ⟨[1,2,3,4], 2, 2⟩ 0 (ColIdx.pos 3) (by decide)).1,
    (C1_out_of_bounds_access Nat ⟨[1,2,3,4], 2, 2⟩ 0 (ColIdx.pos 3) (by decide)).2⟩

/-- C2: `new` succeeds if and only if the buffer length equals
`num_rows * num_cols`, and on success `shape` returns exactly
`(num_rows, num_cols)`. -/
theorem C2_new_succeeds_iff (T : Type) (buffer : List T) (r c : Nat) :
    ((TwoDimensionalArray.new buffer r c).isOk = true ↔ buffer.length = r * c) ∧
      ∀ v, TwoDimensionalArray.new buffer r c = Except.ok v → v.shape = (r, c) := by
  unfold TwoDimensionalArray.new
  by_cases h : buffer.length = c * r
  · rw [if_neg (by simpa using h)]
    refine ⟨⟨fun _ => h.trans (Nat.mul_comm c r), fun _ => rfl⟩, ?_⟩
    intro v hv
    cases hv
    rfl
  · rw [if_pos (by simpa using h)]
    refine ⟨⟨fun hb => ?_, fun hb => absurd (hb.trans (Nat.mul_comm r c)) h⟩, ?_⟩
    · simp [Except.isOk, Except.toBool] at hb
    · intro v hv
      cases hv

/-- Witness for C2 at the 2×2 view of `[1,2,3,4]`: the success direction and
the shape of the constructed view. -/
theorem C2_new_succeeds_iff_witness :
    (TwoDimensionalArray.new ([1,2,3,4] : List Nat) 2 2).isOk = true ∧
      (⟨[1,2,3,4], 2, 2⟩ : TwoDimensionalArray Nat).shape = (2, 2) :=
  ⟨(C2_new_succeeds_iff Nat [1,2,3,4] 2 2).1.mpr (by decide),
    (C2_new_succeeds_iff Nat [1,2,3,4] 2 2).2 ⟨[1,2,3,4], 2, 2⟩ rfl⟩

/-- C3: when `rows * cols` differs from the buffer length, `new` and `reshape`
fail with exactly `InvalidShape {buffer_len, num_rows, num_cols}` carrying the
buffer length and the rejected pair, and the failed `reshape` leaves the view —
in particular both dimensions — unchanged. -/
theorem C3_invalid_shape (T : Type) (buffer : List T) (a : TwoDimensionalArray T)
    (r c : Nat) (h1 : buffer.length ≠ r * c) (h2 : a.buffer.length ≠ r * c) :
    TwoDimensionalArray.new buffer r c =
        Except.error (ShapeError.InvalidShape buffer.length r c) ∧
      (a.reshape r c).1 = Except.error (ShapeError.InvalidShape a.buffer.length r c) ∧
      (a.reshape r c).2 = a := by
  have h1' : buffer.length ≠ c * r := by rw [Nat.mul_comm c r]; exact h1
  have h2' : a.buffer.length ≠ c * r := by rw [Nat.mul_comm c r]; exact h2
  unfold TwoDimensionalArray.new TwoDimensionalArray.reshape
  rw [if_pos h1', if_pos h2']
  exact ⟨rfl, rfl, rfl⟩

/-- Witness for C3: `[1,2,3,4]` cannot be shaped 3×2; `new` and `reshape` both
report `InvalidShape 4 3 2` and the 2×2 view is untouched. -/
theorem C3_invalid_shape_witness :
    ([1,2,3,4] : List Nat).length ≠ 3 * 2 ∧
      TwoDimensionalArray.new ([1,2,3,4] : List Nat) 3 2 =
        Except.error (ShapeError.InvalidShape 4 3 2) ∧
      ((⟨[1,2,3,4], 2, 2⟩ : TwoDimensionalArray Nat).reshape 3 2).1 =
        Except.error (ShapeError.InvalidShape 4 3 2) ∧
      ((⟨[1,2,3,4], 2, 2⟩ : TwoDimensionalArray Nat).reshape 3 2).2 =
        ⟨[1,2,3,4], 2, 2⟩ :=
  ⟨by decide,
    C3_invalid_shape Nat [1,2,3,4] ⟨[1,2,3,4], 2, 2⟩ 3 2 (by decide) (by decide)⟩

/-- C7: the displayed representation of `InvalidShape` is exactly the message
with the three integers substituted; checked generically and on the concrete
triple (4, 3, 2). -/
theorem C7_display_format (b r c : Nat) :
    (ShapeError.InvalidShape b r c).display =
        "Cannot reshape two dimensional array with number of elements " ++
          toString b ++ " into " ++ toString r ++ "x" ++ toString c ++ " array" ∧
      (ShapeError.InvalidShape 4 3 2).display =
        "Cannot reshape two dimensional array with number of elements 4 into 3x2 array" :=
  ⟨rfl, rfl⟩

/-- C10: `reshape` never modifies the buffer contents — `as_slice` is
identical before and after the call, whether it succeeds or fails; only the
two dimension fields may change. -/
theorem C10_reshape_preserves_buffer (T : Type) (a : TwoDimensionalArray T) (r c : Nat) :
    ((a.reshape r c).2).as_slice = a.as_slice ∧ ((a.reshape r c).2).buffer = a.buffer := by
  unfold TwoDimensionalArray.reshape TwoDimensionalArray.as_slice
  by_cases h : a.buffer.length ≠ c * r
  · rw [if_pos h]
    exact ⟨rfl, rfl⟩
  · rw [if_neg h]
    exact ⟨rfl, rfl⟩

/-- C5: the shape invariant `buffer.length = num_rows * num_cols` is
established by construction, re-validated and preserved by every `reshape`
(successful or not), preserved by the only other mutation (writing elements
through the mutable accessors), which also leaves both dimensions untouched;
consequently `len` always equals `num_rows * num_cols`. -/
theorem C5_shape_invariant (T : Type) (buffer : List T) (r c : Nat)
    (a v : TwoDimensionalArray T) (row col : Nat) (x : T)
    (hnew : TwoDimensionalArray.new buffer r c = Except.ok v) (ha : a.Inv) :
    v.Inv ∧ ((a.reshape r c).2).Inv ∧ (a.set_through row col x).Inv ∧
      (a.set_through row col x).num_rows = a.num_rows ∧
      (a.set_through row col x).num_cols = a.num_cols ∧
      a.len = a.num_rows * a.num_cols := by
  refine ⟨?_, ?_, ?_, rfl, rfl, ha⟩
  · unfold TwoDimensionalArray.new at hnew
    by_cases h : buffer.length = c * r
    · rw [if_neg (by simpa using h)] at hnew
      cases hnew
      exact h.trans (Nat.mul_comm c r)
    · rw [if_pos (by simpa using h)] at hnew
      cases hnew
  · unfold TwoDimensionalArray.reshape
    by_cases h : a.buffer.length = c * r
    · rw [if_neg (by simpa using h)]
      exact h.trans (Nat.mul_comm c r)
    · rw [if_pos (by simpa using h)]
      exact ha
  · unfold TwoDimensionalArray.set_through TwoDimensionalArray.Inv
    simpa using ha

/-- Witness for C5: construction of the 2×2 view, a successful reshape to 4×1,
and a write at coordinate (0, 1). -/
theorem C5_shape_invariant_witness :
    (⟨[1,2,3,4], 2, 2⟩ : TwoDimensionalArray Nat).Inv ∧
      (((⟨[1,2,3,4], 2, 2⟩ : TwoDimensionalArray Nat).reshape 4 1).2).Inv ∧
      ((⟨[1,2,3,4], 2, 2⟩ : TwoDimensionalArray Nat).set_through 0 1 42).Inv ∧
      ((⟨[1,2,3,4], 2, 2⟩ : TwoDimensionalArray Nat).set_through 0 1 42).num_rows = 2 ∧
      ((⟨[1,2,3,4], 2, 2⟩ : TwoDimensionalArray Nat).set_through 0 1 42).num_cols = 2 ∧
      (⟨[1,2,3,4], 2, 2⟩ : TwoDimensionalArray Nat).len = 2 * 2 :=
  C5_shape_invariant Nat [1,2,3,4] 4 1 ⟨[1,2,3,4], 2, 2⟩ ⟨[1,2,3,4], 4, 1⟩ 0 1 42 rfl rfl

/-- C6: on every in-bounds pair of row index and column selector, `get`,
`get_panic`, and `get_unchecked` observe the same value — for a position
selector, the buffer element at linear offset `row_idx * num_cols + i`, and
for a range selector the same sub-slice of that row. -/
theorem C6_accessor_tiers_agree (T : Type) [Inhabited T] (a : TwoDimensionalArray T)
    (row_idx : Nat) (col_idx : ColIdx) (h : a.inBounds row_idx col_idx) :
    a.get row_idx col_idx = some (a.get_unchecked row_idx col_idx) ∧
      a.get_panic row_idx col_idx = some (a.get_unchecked row_idx col_idx) ∧
      ∀ i, col_idx = ColIdx.pos i →
        a.get row_idx col_idx = (a.buffer.get? (row_idx * a.num_cols + i)).map Sum.inl := by
  have hg := get_eq_some_of_inBounds a row_idx col_idx h
  refine ⟨hg, by rw [get_panic_eq_get, hg], ?_⟩
  intro i hi
  subst hi
  exact get_pos_linear_offset a row_idx i h

/-- Witness for C6: coordinate (0, 1) of the 2×2 view of `[1,2,3,4]`, where all
three tiers observe the element 2 at linear offset 1. -/
theorem C6_accessor_tiers_agree_witness :
    (⟨[1,2,3,4], 2, 2⟩ : TwoDimensionalArray Nat).inBounds 0 (ColIdx.pos 1) ∧
      (⟨[1,2,3,4], 2, 2⟩ : TwoDimensionalArray Nat).get 0 (ColIdx.pos 1) =
        some ((⟨[1,2,3,4], 2, 2⟩ : TwoDimensionalArray Nat).get_unchecked 0 (ColIdx.pos 1)) ∧
      (⟨[1,2,3,4], 2, 2⟩ : TwoDimensionalArray Nat).get_panic 0 (ColIdx.pos 1) =
        some ((⟨[1,2,3,4], 2, 2⟩ : TwoDimensionalArray Nat).get_unchecked 0 (ColIdx.pos 1)) ∧
      (⟨[1,2,3,4], 2, 2⟩ : TwoDimensionalArray Nat).get 0 (ColIdx.pos 1) =
        (([1,2,3,4] : List Nat).get? (0 * 2 + 1)).map Sum.inl :=
  ⟨by decide,
    (C6_accessor_tiers_agree Nat ⟨[1,2,3,4], 2, 2⟩ 0 (ColIdx.pos 1) (by decide)).1,
    (C6_accessor_tiers_agree Nat ⟨[1,2,3,4], 2, 2⟩ 0 (ColIdx.pos 1) (by decide)).2.1,
    (C6_accessor_tiers_agree Nat ⟨[1,2,3,4], 2, 2⟩ 0 (ColIdx.pos 1) (by decide)).2.2 1 rfl⟩

/-- C8: `new` (and `reshape`) accept `num_cols = 0` with any `num_rows` on an
empty buffer, yet on every view with `num_cols = 0` both `rows` and `rows_mut`
hit the chunk-size-0 assertion of `slice::chunks` and panic (modelled as
`none`) instead of returning a row sequence. -/
theorem C8_rows_panic_on_zero_cols (T : Type) (r : Nat) (a b : TwoDimensionalArray T)
    (hc : a.num_cols = 0) (hb : b.buffer = []) :
    (TwoDimensionalArray.new ([] : List T) r 0).isOk = true ∧
      (b.reshape r 0).1 = Except.ok () ∧
      a.rows = none ∧ a.rows_mut = none := by
  refine ⟨?_, ?_, ?_, ?_⟩
  · unfold TwoDimensionalArray.new
    rw [if_neg (by simp)]
    rfl
  · unfold TwoDimensionalArray.reshape
    rw [if_neg (by simp [hb])]
  · unfold TwoDimensionalArray.rows
    rw [if_pos hc]
  · unfold TwoDimensionalArray.rows_mut
    rw [if_pos hc]

/-- Witness for C8: the empty buffer viewed as 3×0 (and reshaped from 0×0),
with 5 requested rows in the constructions. -/
theorem C8_rows_panic_on_zero_cols_witness :
    (TwoDimensionalArray.new ([] : List Nat) 5 0).isOk = true ∧
      ((⟨[], 0, 0⟩ : TwoDimensionalArray Nat).reshape 5 0).1 = Except.ok () ∧
      (⟨[], 3, 0⟩ : TwoDimensionalArray Nat).rows = none ∧
      (⟨[], 3, 0⟩ : TwoDimensionalArray Nat).rows_mut = none :=
  C8_rows_panic_on_zero_cols Nat 5 ⟨[], 3, 0⟩ ⟨[], 0, 0⟩ rfl rfl

/-- C9: on a view with `num_cols = 0`, the row sub-range of every row index —
even one at or beyond `num_rows` — resolves to the always-in-bounds empty
range `0..0`, so `get (r, 0..0)` returns a present empty sub-slice and
`get_panic (r, 0..0)` does not panic, for every `r`. -/
theorem C9_zero_cols_accepts_any_row (T : Type) (a : TwoDimensionalArray T)
    (row_idx : Nat) (hc : a.num_cols = 0) :
    a.inBounds row_idx (ColIdx.range 0 0) ∧
      a.get row_idx (ColIdx.range 0 0) = some (Sum.inr []) ∧
      a.get_panic row_idx (ColIdx.range 0 0) = some (Sum.inr []) := by
  have hb : a.inBounds row_idx (ColIdx.range 0 0) := by
    refine ⟨?_, Nat.le_refl 0, Nat.zero_le _⟩
    rw [hc]
    simp
  refine ⟨hb, ?_, ?_⟩
  · unfold TwoDimensionalArray.get
    rw [hc]
    simp [sliceGetRange]
  · rw [get_panic_eq_get]
    unfold TwoDimensionalArray.get
    rw [hc]
    simp [sliceGetRange]

/-- Witness for C9: the empty buffer viewed as 3×0, queried at row 7, beyond
its 3 rows. -/
theorem C9_zero_cols_accepts_any_row_witness :
    (⟨[], 3, 0⟩ : TwoDimensionalArray Nat).inBounds 7 (ColIdx.range 0 0) ∧
      (⟨[], 3, 0⟩ : TwoDimensionalArray Nat).get 7 (ColIdx.range 0 0) =
        some (Sum.inr []) ∧
      (⟨[], 3, 0⟩ : TwoDimensionalArray Nat).get_panic 7 (ColIdx.range 0 0) =
        some (Sum.inr []) :=
  C9_zero_cols_accepts_any_row Nat ⟨[], 3, 0⟩ 7 rfl

/-- C4 fails as stated on views with `num_cols = 0`: the view of the empty
buffer with shape (1, 0) is constructible — `0 = 0 * 1` passes validation —
but `rows()` panics (modelled `none`) instead of yielding one sub-slice of
length 0. -/
theorem C4_rows_counterexample :
    TwoDimensionalArray.new ([] : List Nat) 1 0 =
        Except.ok (⟨[], 1, 0⟩ : TwoDimensionalArray Nat) ∧
      (⟨[], 1, 0⟩ : TwoDimensionalArray Nat).num_rows = 1 ∧
      (⟨[], 1, 0⟩ : TwoDimensionalArray Nat).rows = none :=
  ⟨rfl, rfl, rfl⟩

/-- C4 (amended): for every view satisfying the shape invariant whose
`num_cols` is positive, `rows()` yields exactly `num_rows` sub-slices, each of
length `num_cols`, in row order, and their concatenation equals `as_slice()`;
for `num_cols = 0` the call panics instead (see the counterexample). -/
theorem C4_rows_partition (T : Type) (a : TwoDimensionalArray T) (hInv : a.Inv)
    (hc : 0 < a.num_cols) :
    ∃ l, a.rows = some l ∧ l.length = a.num_rows ∧
      (∀ c ∈ l, c.length = a.num_cols) ∧ l.flatten = a.as_slice := by
  obtain ⟨h1, h2, h3⟩ := chunksGo_spec a.num_cols hc a.num_rows a.buffer hInv
  refine ⟨chunksGo a.num_cols a.buffer, ?_, h1, h2, h3⟩
  unfold TwoDimensionalArray.rows
  rw [if_neg (by omega : ¬ a.num_cols = 0)]

/-- Witness for the amended C4: the 2×2 view of `[1,2,3,4]` partitions into
the two rows `[1,2]` and `[3,4]`. -/
theorem C4_rows_partition_witness :
    ∃ l, (⟨[1,2,3,4], 2, 2⟩ : TwoDimensionalArray Nat).rows = some l ∧
      l.length = 2 ∧ (∀ c ∈ l, c.length = 2) ∧
      l.flatten = (⟨[1,2,3,4], 2, 2⟩ : TwoDimensionalArray Nat).as_slice :=
  C4_rows_partition Nat ⟨[1,2,3,4], 2, 2⟩ rfl (by decide)
